import Mathlib

set_option linter.unusedVariables false

/-!
Verification of the qwind core: the streamline equation-of-motion
integrator and the multi-streamline orchestration/aggregation layer.

The repository ships only the usage notebook `quickstart.ipynb`; the
`qwind.wind` engine it drives (Qwind, line/iterate, start_lines, mdot_w)
is specified in `spec.md` sections 3-4 and 7-8.  The definitions below
are therefore modelled from that specification.  Machine arithmetic is
idealised over `ℚ`; the "non-finite value" failure mode of floating
point is modelled by the explicit `Except` error channel demanded by the
spec (`InvalidStateError`, `NumericalFailure`).
-/

/-- Modelled from the spec: the error kinds of section 7 for the missing
`qwind.wind` module.  `invalidState` is degenerate or non-physical input
to the force field; `numericalFailure` is a non-finite intermediate value
produced mid-integration (here surfaced by the injected lookup). -/
inductive QwindError where
  | invalidState
  | numericalFailure
deriving DecidableEq, Repr

/-- Modelled from the spec: the termination status of a streamline
(section 4.2): `Running → \x7bEscaped, FellBack, Stalled\x7d`. -/
inductive Status where
  | Running
  | Escaped
  | FellBack
  | Stalled
deriving DecidableEq, Repr

/-- Modelled from the spec: `PhysicalState` (section 3): position
(R, Z) in gravitational-radius units, velocity components (vR, vZ),
local density rho, and the time stamp t recorded with each history
entry (section 6 lists (R, Z, v_R, v_Z, rho, t) tuples). -/
structure PhysicalState where
  R : ℚ
  Z : ℚ
  vR : ℚ
  vZ : ℚ
  rho : ℚ
  t : ℚ
deriving DecidableEq, Repr

/-- Modelled from the spec: the global physical configuration shared
read-only by all streamlines and the force field (sections 3 and 6):
central mass, luminosity, disc radial extent, escape boundary, maximum
step count, integrator timestep, launch height and grid annulus width. -/
structure Config where
  M : ℚ
  lum : ℚ
  discOuterR : ℚ
  escapeR : ℚ
  maxSteps : Nat
  dt : ℚ
  z0 : ℚ
  dR : ℚ
deriving DecidableEq, Repr

/-- Modelled from the spec: the injected radiation/opacity lookup of
section 6 - a function of the local state returning a force-multiplier
value.  It may itself signal a failure (the spec's failure-isolation
property injects a forced `NumericalFailure` through it). -/
def ForceMultiplier : Type := PhysicalState → Except QwindError ℚ

/-- Modelled from the spec: `ForceField.acceleration` (section 4.1), a
pure function of the current state and global parameters returning
(a_R, a_Z).  Gravity points from the parcel to the origin with magnitude
a power of the distance; radiation pressure points away from the origin,
scaled by the injected force multiplier.  To stay inside `ℚ` the law is
written in squared-distance form: both terms carry the factor
(R, Z) / d2^2 with d2 = R^2 + Z^2, which preserves direction, sign and
the degeneracy behaviour at d2 = 0.  Degenerate input (distance zero or
negative density) fails with `invalidState` rather than silently
producing a non-finite value, so the caller can mark the streamline
Stalled. -/
def acceleration (cfg : Config) (fm : ForceMultiplier) (s : PhysicalState) :
    Except QwindError (ℚ × ℚ) :=
  let d2 := s.R ^ 2 + s.Z ^ 2
  if d2 = 0 then .error .invalidState
  else if s.rho < 0 then .error .invalidState
  else
    match fm s with
    | .error e => .error e
    | .ok m =>
        let k := (m * cfg.lum - cfg.M) / (d2 * d2)
        .ok (k * s.R, k * s.Z)

/-- Modelled from the spec: total specific energy, kinetic + potential
(section 4.2's escape test), with the potential written in the same
squared-distance convention as `acceleration`. -/
def energy (cfg : Config) (s : PhysicalState) : ℚ :=
  (s.vR ^ 2 + s.vZ ^ 2) / 2 - cfg.M / (s.R ^ 2 + s.Z ^ 2)

/-- Modelled from the spec: `Streamline` (section 3): launch identity
(R0, rho0, vZ0) plus the annulus width this line represents in the
radius-ordered grid, the current `PhysicalState`, the append-only
history of accepted states, the user-visible per-quantity history
arrays `r_hist` and `z_hist` seen in the notebook, the termination
status, and the step counter. -/
structure Streamline where
  R0 : ℚ
  rho0 : ℚ
  vZ0 : ℚ
  width : ℚ
  state : PhysicalState
  history : List PhysicalState
  r_hist : List ℚ
  z_hist : List ℚ
  status : Status
  steps : Nat
deriving DecidableEq, Repr

/-- Modelled from the spec: streamline initialization (section 4.2):
sets the initial `PhysicalState`, clears the history, sets status =
Running, and appends the initial state as history entry 0.  This is the
construction half of `launchSingle`/`Qwind.line` in the notebook. -/
def launchSingle (cfg : Config) (r0 rho0 vZ0 : ℚ) : Streamline :=
  let s0 : PhysicalState := ⟨r0, cfg.z0, 0, vZ0, rho0, 0⟩
  { R0 := r0, rho0 := rho0, vZ0 := vZ0, width := cfg.dR
    state := s0, history := [s0], r_hist := [s0.R], z_hist := [s0.Z]
    status := .Running, steps := 0 }

/-- Modelled from the spec: the termination policy evaluated after every
step (section 4.2): FellBack if Z has fallen to the disc plane within
the disc's radial extent; Escaped if the total specific energy is
positive and R or Z exceeds the configured escape boundary; Stalled if
the step counter has reached the configured maximum without either. -/
def classify (cfg : Config) (s : PhysicalState) (steps : Nat) : Status :=
  if s.Z ≤ 0 ∧ s.R ≤ cfg.discOuterR then .FellBack
  else if 0 < energy cfg s ∧ (cfg.escapeR < s.R ∨ cfg.escapeR < s.Z) then .Escaped
  else if cfg.maxSteps ≤ steps then .Stalled
  else .Running

/-- Modelled from the spec: the kinematic update of one accepted step
(section 4.2): advance velocity then position by one explicit
(symplectic-Euler / leapfrog style) timestep and update the density by
the continuity relation - the density scales with the radial expansion
of the line's cross section. -/
def nextState (cfg : Config) (s : PhysicalState) (aR aZ : ℚ) : PhysicalState :=
  let vR2 := s.vR + aR * cfg.dt
  let vZ2 := s.vZ + aZ * cfg.dt
  let R2 := s.R + vR2 * cfg.dt
  let Z2 := s.Z + vZ2 * cfg.dt
  let rho2 := s.rho * (s.R ^ 2 / R2 ^ 2)
  ⟨R2, Z2, vR2, vZ2, rho2, s.t + cfg.dt⟩

/-- Modelled from the spec: one integration step (section 4.2).  While
status = Running: evaluate the force field at the current state - a
failure (`InvalidStateError` or `NumericalFailure`) is caught here, at
the step boundary, and recorded as Stalled; otherwise advance the state
by `nextState`, append the new state to the history and the
per-quantity history arrays, increment the step counter, and apply the
termination policy.  A terminal streamline is left untouched. -/
def stepLine (cfg : Config) (fm : ForceMultiplier) (l : Streamline) : Streamline :=
  if l.status ≠ .Running then l
  else
    match acceleration cfg fm l.state with
    | .error _ => { l with status := .Stalled }
    | .ok (aR, aZ) =>
        let s2 := nextState cfg l.state aR aZ
        { l with
          state := s2
          history := l.history ++ [s2]
          r_hist := l.r_hist ++ [s2.R]
          z_hist := l.z_hist ++ [s2.Z]
          steps := l.steps + 1
          status := classify cfg s2 (l.steps + 1) }

/-- Modelled from the spec: `iterate(max_steps)` (section 4.2):
repeatedly invoke `stepLine` until a terminal status is reached or the
step budget is exhausted.  Idempotent once terminal. -/
def iterateLine (cfg : Config) (fm : ForceMultiplier) : Nat → Streamline → Streamline
  | 0, l => l
  | n + 1, l =>
      if l.status ≠ .Running then l
      else iterateLine cfg fm n (stepLine cfg fm l)

/-- Modelled from the spec: the ensemble (section 3): an ordered
sequence of streamlines sharing the read-only global parameters. -/
structure Ensemble where
  lines : List Streamline
deriving DecidableEq, Repr

/-- Modelled from the spec: `launchGrid` (section 4.3): one streamline
per grid point, registered in the order of the given radii, with the
density and initial-velocity profiles evaluated at each launch
radius. -/
def launchGrid (cfg : Config) (radii : List ℚ) (rhoProf vProf : ℚ → ℚ) :
    List Streamline :=
  radii.map (fun r => launchSingle cfg r (rhoProf r) (vProf r))

/-- Modelled from the spec: `runAll(max_steps)` (section 4.3): drive
every registered streamline to termination via `iterate`,
independently - each line's run depends only on its own state. -/
def runAll (cfg : Config) (fm : ForceMultiplier) (n : Nat)
    (lines : List Streamline) : List Streamline :=
  lines.map (iterateLine cfg fm n)

/-- Modelled from the spec: the contribution of one streamline to the
mass-loss rate (section 4.3): proportional to its launch density, the
launch vertical velocity it carries out of the disc, and the disc-area
annulus it represents (2 R0 dR, the constant factors dropped with the
unit system); FellBack and Stalled lines contribute zero. -/
def contribution (l : Streamline) : ℚ :=
  if l.status = .Escaped then l.rho0 * l.vZ0 * (2 * l.R0 * l.width) else 0

/-- Modelled from the spec: the aggregation sweep of `massLossRate`
(section 4.3), a left fold visiting the streamlines in their registered
(radius-ascending) order. -/
def mdotSweep (lines : List Streamline) : ℚ :=
  lines.foldl (fun acc l => acc + contribution l) 0

/-- Modelled from the spec: `massLossRate` / `mdot_w` (section 4.3):
defined only once the contributing streamlines have terminated; before
that it returns the "not yet available" signal (`none`) rather than a
meaningless partial number. -/
def massLossRate (ens : Ensemble) : Option ℚ :=
  if ens.lines.any (fun l => l.status = .Running) then none
  else some (mdotSweep ens.lines)

/-- Modelled from the spec: `start_lines` as used in the notebook:
constructs the grid of streamlines and drives every one of them to a
terminal state, leaving the ensemble ready for `mdot_w`. -/
def start_lines (cfg : Config) (fm : ForceMultiplier) (radii : List ℚ)
    (rhoProf vProf : ℚ → ℚ) (n : Nat) : Ensemble :=
  { lines := runAll cfg fm n (launchGrid cfg radii rhoProf vProf) }

/-! ## Basic lemmas about the streamline state machine -/

lemma stepLine_of_terminal (cfg : Config) (fm : ForceMultiplier) (l : Streamline)
    (h : l.status ≠ .Running) : stepLine cfg fm l = l := by
  simp [stepLine, h]

lemma iterateLine_of_terminal (cfg : Config) (fm : ForceMultiplier) (n : Nat)
    (l : Streamline) (h : l.status ≠ .Running) : iterateLine cfg fm n l = l := by
  cases n with
  | zero => rfl
  | succ n => simp [iterateLine, h]

lemma iterateLine_succ_of_running (cfg : Config) (fm : ForceMultiplier) (n : Nat)
    (l : Streamline) (h : l.status = .Running) :
    iterateLine cfg fm (n + 1) l = iterateLine cfg fm n (stepLine cfg fm l) := by
  simp [iterateLine, h]

lemma stepLine_status_source (cfg : Config) (fm : ForceMultiplier) (l : Streamline)
    (h : (stepLine cfg fm l).status ≠ l.status) : l.status = .Running := by
  by_contra hr
  rw [stepLine_of_terminal cfg fm l hr] at h
  exact h rfl

lemma classify_running_lt (cfg : Config) (s : PhysicalState) (k : Nat)
    (h : classify cfg s k = .Running) : k < cfg.maxSteps := by
  unfold classify at h
  split_ifs at h with h1 h2 h3
  omega

lemma stepLine_running_cases (cfg : Config) (fm : ForceMultiplier) (l : Streamline)
    (h : l.status = .Running) :
    (stepLine cfg fm l).steps = l.steps ∧ (stepLine cfg fm l).status = .Stalled ∨
      (stepLine cfg fm l).steps = l.steps + 1 := by
  unfold stepLine
  rw [h]
  cases hacc : acceleration cfg fm l.state with
  | error e => left; simp
  | ok a => right; rcases a with ⟨aR, aZ⟩; simp

lemma stepLine_steps_of_running (cfg : Config) (fm : ForceMultiplier) (l : Streamline)
    (h : l.status = .Running) (h2 : (stepLine cfg fm l).status = .Running) :
    (stepLine cfg fm l).steps = l.steps + 1 ∧ l.steps + 1 < cfg.maxSteps := by
  unfold stepLine at h2 ⊢
  rw [h] at h2 ⊢
  cases hacc : acceleration cfg fm l.state with
  | error e =>
      rw [hacc] at h2
      simp at h2
  | ok a =>
      rcases a with ⟨aR, aZ⟩
      rw [hacc] at h2
      exact ⟨rfl, classify_running_lt cfg _ _ h2⟩

/-- Step-counter invariant maintained by the integrator: the counter
never exceeds the configured maximum, and a still-Running streamline has
strictly fewer accepted steps than the maximum. -/
def StepInv (cfg : Config) (l : Streamline) : Prop :=
  l.steps ≤ cfg.maxSteps ∧ (l.status = .Running → l.steps < cfg.maxSteps)

lemma stepInv_launch (cfg : Config) (r0 rho0 vZ0 : ℚ) (h : 1 ≤ cfg.maxSteps) :
    StepInv cfg (launchSingle cfg r0 rho0 vZ0) := by
  constructor
  · simp [launchSingle]
  · intro _
    simpa [launchSingle] using h

lemma stepInv_step (cfg : Config) (fm : ForceMultiplier) (l : Streamline)
    (h : StepInv cfg l) : StepInv cfg (stepLine cfg fm l) := by
  by_cases hs : l.status = .Running
  · rcases stepLine_running_cases cfg fm l hs with ⟨he, hst⟩ | he
    · exact ⟨he ▸ h.1, fun hr => by rw [hst] at hr; cases hr⟩
    · constructor
      · rw [he]; exact h.2 hs
      · intro hr
        rw [he]
        exact (stepLine_steps_of_running cfg fm l hs hr).2
  · rw [stepLine_of_terminal cfg fm l hs]
    exact h

lemma stepInv_iterate (cfg : Config) (fm : ForceMultiplier) (n : Nat) (l : Streamline)
    (h : StepInv cfg l) : StepInv cfg (iterateLine cfg fm n l) := by
  induction n generalizing l with
  | zero => exact h
  | succ n ih =>
      by_cases hs : l.status = .Running
      · rw [iterateLine_succ_of_running cfg fm n l hs]
        exact ih _ (stepInv_step cfg fm l h)
      · rw [iterateLine_of_terminal cfg fm _ l hs]
        exact h

/-- With a step budget covering the configured maximum, the integrator
always reaches a terminal status. -/
lemma iterateLine_resolves (cfg : Config) (fm : ForceMultiplier) :
    ∀ (n : Nat) (l : Streamline), StepInv cfg l → cfg.maxSteps ≤ l.steps + n →
      (iterateLine cfg fm n l).status ≠ .Running := by
  intro n
  induction n with
  | zero =>
      intro l hinv hn hr
      have := hinv.2 hr
      omega
  | succ n ih =>
      intro l hinv hn
      by_cases hs : l.status = .Running
      · rw [iterateLine_succ_of_running cfg fm n l hs]
        by_cases hr : (stepLine cfg fm l).status = .Running
        · have hsteps := (stepLine_steps_of_running cfg fm l hs hr).1
          exact ih (stepLine cfg fm l) (stepInv_step cfg fm l hinv) (by omega)
        · rw [iterateLine_of_terminal cfg fm n _ hr]
          exact hr
      · rw [iterateLine_of_terminal cfg fm _ l hs]
        exact hs

/-- Case analysis on one integration step of a Running streamline:
either the force field failed and the line is marked Stalled in place,
or the state advanced by `nextState` with histories appended and the
termination policy applied. -/
lemma stepLine_cases (cfg : Config) (fm : ForceMultiplier) (l : Streamline)
    (h : l.status = .Running) :
    (∃ e, acceleration cfg fm l.state = .error e ∧
        stepLine cfg fm l = { l with status := .Stalled }) ∨
      (∃ aR aZ, acceleration cfg fm l.state = .ok (aR, aZ) ∧
        stepLine cfg fm l =
          { l with
            state := nextState cfg l.state aR aZ
            history := l.history ++ [nextState cfg l.state aR aZ]
            r_hist := l.r_hist ++ [(nextState cfg l.state aR aZ).R]
            z_hist := l.z_hist ++ [(nextState cfg l.state aR aZ).Z]
            steps := l.steps + 1
            status := classify cfg (nextState cfg l.state aR aZ) (l.steps + 1) }) := by
  cases hacc : acceleration cfg fm l.state with
  | error e =>
      left
      refine ⟨e, rfl, ?_⟩
      unfold stepLine
      rw [h, hacc]
      simp
  | ok a =>
      rcases a with ⟨aR, aZ⟩
      right
      refine ⟨aR, aZ, rfl, ?_⟩
      unfold stepLine
      rw [h, hacc]
      simp

/-! ## History invariants -/

/-- The history holds one snapshot per accepted step plus the initial
state: its length is the step counter plus one. -/
def HistLen (l : Streamline) : Prop :=
  l.history.length = l.steps + 1

/-- The user-visible per-quantity history arrays are the per-entry
projections of the snapshot history, in the same time order. -/
def HistSync (l : Streamline) : Prop :=
  l.r_hist = l.history.map (fun s => s.R) ∧
    l.z_hist = l.history.map (fun s => s.Z)

/-- The recorded timestamps are strictly increasing and the last history
entry is the current state. -/
def TimeMono (l : Streamline) : Prop :=
  List.Chain' (fun a b => a < b) (l.history.map (fun s => s.t)) ∧
    l.history.getLast? = some l.state

lemma histLen_launch (cfg : Config) (r0 rho0 vZ0 : ℚ) :
    HistLen (launchSingle cfg r0 rho0 vZ0) := by
  simp [HistLen, launchSingle]

lemma histLen_step (cfg : Config) (fm : ForceMultiplier) (l : Streamline)
    (h : HistLen l) : HistLen (stepLine cfg fm l) := by
  by_cases hs : l.status = .Running
  · rcases stepLine_cases cfg fm l hs with ⟨e, _, heq⟩ | ⟨aR, aZ, _, heq⟩
    · rw [heq]; exact h
    · rw [heq]
      simp only [HistLen, List.length_append, List.length_singleton]
      unfold HistLen at h
      omega
  · rw [stepLine_of_terminal cfg fm l hs]; exact h

lemma histLen_iterate (cfg : Config) (fm : ForceMultiplier) (n : Nat) (l : Streamline)
    (h : HistLen l) : HistLen (iterateLine cfg fm n l) := by
  induction n generalizing l with
  | zero => exact h
  | succ n ih =>
      by_cases hs : l.status = .Running
      · rw [iterateLine_succ_of_running cfg fm n l hs]
        exact ih _ (histLen_step cfg fm l h)
      · rw [iterateLine_of_terminal cfg fm _ l hs]; exact h

lemma histSync_launch (cfg : Config) (r0 rho0 vZ0 : ℚ) :
    HistSync (launchSingle cfg r0 rho0 vZ0) := by
  simp [HistSync, launchSingle]

lemma histSync_step (cfg : Config) (fm : ForceMultiplier) (l : Streamline)
    (h : HistSync l) : HistSync (stepLine cfg fm l) := by
  by_cases hs : l.status = .Running
  · rcases stepLine_cases cfg fm l hs with ⟨e, _, heq⟩ | ⟨aR, aZ, _, heq⟩
    · rw [heq]; exact h
    · rw [heq]
      refine ⟨?_, ?_⟩
      · simp only [List.map_append, List.map_cons, List.map_nil]
        rw [h.1]
      · simp only [List.map_append, List.map_cons, List.map_nil]
        rw [h.2]
  · rw [stepLine_of_terminal cfg fm l hs]; exact h

lemma histSync_iterate (cfg : Config) (fm : ForceMultiplier) (n : Nat) (l : Streamline)
    (h : HistSync l) : HistSync (iterateLine cfg fm n l) := by
  induction n generalizing l with
  | zero => exact h
  | succ n ih =>
      by_cases hs : l.status = .Running
      · rw [iterateLine_succ_of_running cfg fm n l hs]
        exact ih _ (histSync_step cfg fm l h)
      · rw [iterateLine_of_terminal cfg fm _ l hs]; exact h

lemma timeMono_launch (cfg : Config) (r0 rho0 vZ0 : ℚ) :
    TimeMono (launchSingle cfg r0 rho0 vZ0) := by
  simp [TimeMono, launchSingle]

lemma nextState_t (cfg : Config) (s : PhysicalState) (aR aZ : ℚ) :
    (nextState cfg s aR aZ).t = s.t + cfg.dt := rfl

lemma timeMono_step (cfg : Config) (fm : ForceMultiplier) (l : Streamline)
    (hdt : 0 < cfg.dt) (h : TimeMono l) : TimeMono (stepLine cfg fm l) := by
  by_cases hs : l.status = .Running
  · rcases stepLine_cases cfg fm l hs with ⟨e, _, heq⟩ | ⟨aR, aZ, _, heq⟩
    · rw [heq]; exact h
    · rw [heq]
      constructor
      · simp only [List.map_append, List.map_cons, List.map_nil]
        rw [List.chain'_append]
        refine ⟨h.1, List.chain'_singleton _, ?_⟩
        intro x hx y hy
        rw [List.getLast?_map, h.2] at hx
        simp only [Option.map_some', Option.mem_def, Option.some_inj] at hx
        simp only [List.head?_cons, Option.mem_def, Option.some_inj] at hy
        subst hx
        subst hy
        rw [nextState_t]
        linarith
      · simp [List.getLast?_concat]
  · rw [stepLine_of_terminal cfg fm l hs]; exact h

lemma timeMono_iterate (cfg : Config) (fm : ForceMultiplier) (n : Nat) (l : Streamline)
    (hdt : 0 < cfg.dt) (h : TimeMono l) : TimeMono (iterateLine cfg fm n l) := by
  induction n generalizing l with
  | zero => exact h
  | succ n ih =>
      by_cases hs : l.status = .Running
      · rw [iterateLine_succ_of_running cfg fm n l hs]
        exact ih _ (timeMono_step cfg fm l hdt h)
      · rw [iterateLine_of_terminal cfg fm _ l hs]; exact h

/-! ## Aggregation lemmas -/

lemma foldl_add_contribution (xs : List Streamline) :
    ∀ acc : ℚ, xs.foldl (fun a l => a + contribution l) acc =
      acc + (xs.map contribution).sum := by
  induction xs with
  | nil => intro acc; simp
  | cons x xs ih =>
      intro acc
      simp only [List.foldl_cons, List.map_cons, List.sum_cons]
      rw [ih]
      ring

lemma mdotSweep_eq (xs : List Streamline) :
    mdotSweep xs = (xs.map contribution).sum := by
  unfold mdotSweep
  rw [foldl_add_contribution]
  ring

lemma contribution_of_not_escaped (l : Streamline) (h : l.status ≠ .Escaped) :
    contribution l = 0 := by
  simp [contribution, h]

lemma contribution_nonneg (l : Streamline) (h1 : 0 ≤ l.rho0) (h2 : 0 ≤ l.vZ0)
    (h3 : 0 ≤ l.R0) (h4 : 0 ≤ l.width) : 0 ≤ contribution l := by
  unfold contribution
  split_ifs
  · positivity
  · exact le_refl 0

lemma contribution_pos (l : Streamline) (h1 : 0 < l.rho0) (h2 : 0 < l.vZ0)
    (h3 : 0 < l.R0) (h4 : 0 < l.width) (hesc : l.status = .Escaped) :
    0 < contribution l := by
  unfold contribution
  rw [if_pos hesc]
  positivity

lemma sum_contribution_pos (xs : List Streamline)
    (hnn : ∀ l ∈ xs, 0 ≤ contribution l) (l0 : Streamline) (hmem : l0 ∈ xs)
    (hpos : 0 < contribution l0) : 0 < (xs.map contribution).sum := by
  induction xs with
  | nil => cases hmem
  | cons x xs ih =>
      simp only [List.map_cons, List.sum_cons]
      rcases List.mem_cons.mp hmem with heq | hmem2
      · have hxs : 0 ≤ (xs.map contribution).sum :=
          List.sum_nonneg (by
            intro a ha
            rcases List.mem_map.mp ha with ⟨b, hb, hba⟩
            exact hba ▸ hnn b (List.mem_cons_of_mem _ hb))
        have := heq ▸ hpos
        linarith
      · have hx : 0 ≤ contribution x := hnn x (List.mem_cons_self x xs)
        have := ih (fun a ha => hnn a (List.mem_cons_of_mem _ ha)) hmem2
        linarith

/-! ## Ensemble lemmas -/

lemma runAll_length (cfg : Config) (fm : ForceMultiplier) (n : Nat)
    (lines : List Streamline) : (runAll cfg fm n lines).length = lines.length := by
  simp [runAll]

lemma runAll_decompose (cfg : Config) (fm : ForceMultiplier) (n : Nat)
    (pre : List Streamline) (l : Streamline) (post : List Streamline) :
    runAll cfg fm n (pre ++ l :: post) =
      runAll cfg fm n pre ++ iterateLine cfg fm n l :: runAll cfg fm n post := by
  simp [runAll]

lemma launchGrid_map_R0 (cfg : Config) (radii : List ℚ) (rhoProf vProf : ℚ → ℚ) :
    (launchGrid cfg radii rhoProf vProf).map (fun l => l.R0) = radii := by
  unfold launchGrid
  rw [List.map_map]
  have : ((fun l => l.R0) ∘ fun r => launchSingle cfg r (rhoProf r) (vProf r)) = id := by
    funext r
    rfl
  rw [this, List.map_id]

lemma launchGrid_length (cfg : Config) (radii : List ℚ) (rhoProf vProf : ℚ → ℚ) :
    (launchGrid cfg radii rhoProf vProf).length = radii.length := by
  simp [launchGrid]

lemma stepLine_stalled_of_error (cfg : Config) (fm : ForceMultiplier) (l : Streamline)
    (h : l.status = .Running) (e : QwindError)
    (hacc : acceleration cfg fm l.state = .error e) :
    stepLine cfg fm l = { l with status := .Stalled } := by
  unfold stepLine
  rw [h, hacc]
  simp

lemma iterateLine_stalled_of_error (cfg : Config) (fm : ForceMultiplier) (n : Nat)
    (l : Streamline) (h : l.status = .Running) (e : QwindError)
    (hacc : acceleration cfg fm l.state = .error e) (hn : 1 ≤ n) :
    (iterateLine cfg fm n l).status = .Stalled := by
  cases n with
  | zero => omega
  | succ n =>
      rw [iterateLine_succ_of_running cfg fm n l h,
        stepLine_stalled_of_error cfg fm l h e hacc,
        iterateLine_of_terminal cfg fm n _ (by simp)]

lemma massLossRate_of_resolved (ens : Ensemble)
    (h : ∀ l ∈ ens.lines, l.status ≠ .Running) :
    massLossRate ens = some (mdotSweep ens.lines) := by
  unfold massLossRate
  rw [if_neg]
  simp only [List.any_eq_true, decide_eq_true_eq, not_exists]
  intro l hmem
  exact h l hmem.1 hmem.2

lemma mem_start_lines (cfg : Config) (fm : ForceMultiplier) (radii : List ℚ)
    (rhoProf vProf : ℚ → ℚ) (n : Nat) (l : Streamline)
    (h : l ∈ (start_lines cfg fm radii rhoProf vProf n).lines) :
    ∃ r ∈ radii, l = iterateLine cfg fm n (launchSingle cfg r (rhoProf r) (vProf r)) := by
  unfold start_lines runAll launchGrid at h
  simp only [List.mem_map] at h
  rcases h with ⟨l0, ⟨r, hr, hl0⟩, hl⟩
  exact ⟨r, hr, by rw [← hl, ← hl0]⟩

lemma status_terminal_cases (s : Status) (h : s ≠ .Running) :
    s = .Escaped ∨ s = .FellBack ∨ s = .Stalled := by
  cases s
  · exact absurd rfl h
  · exact Or.inl rfl
  · exact Or.inr (Or.inl rfl)
  · exact Or.inr (Or.inr rfl)

/-! ## Concrete instances used by the witnesses -/

/-- A small concrete configuration for the witnesses. -/
def cfg1 : Config :=
  { M := 1, lum := 1, discOuterR := 1000, escapeR := 1000,
    maxSteps := 2, dt := 1, z0 := 1, dR := 10 }

/-- A force-multiplier lookup that always returns 0 (radiation off). -/
def fmZero : ForceMultiplier := fun _ => .ok 0

/-- A force-multiplier lookup that always fails, as in the spec's
forced-`NumericalFailure` injection. -/
def fmFail : ForceMultiplier := fun _ => .error .numericalFailure

/-- A concrete streamline that has already escaped. -/
def lineEsc : Streamline :=
  { R0 := 100, rho0 := 1, vZ0 := 1, width := 10
    state := ⟨100, 1, 0, 1, 1, 0⟩, history := [⟨100, 1, 0, 1, 1, 0⟩]
    r_hist := [100], z_hist := [1], status := .Escaped, steps := 1 }

/-- A concrete streamline that has already fallen back. -/
def lineFell : Streamline :=
  { R0 := 50, rho0 := 1, vZ0 := 1, width := 10
    state := ⟨50, 0, 0, 0, 1, 0⟩, history := [⟨50, 0, 0, 0, 1, 0⟩]
    r_hist := [50], z_hist := [0], status := .FellBack, steps := 1 }

/-- A concrete streamline still running, poised at a state where the
simplifier can evaluate the force field directly. -/
def lineRun : Streamline :=
  { R0 := 1, rho0 := 0, vZ0 := 0, width := 10
    state := ⟨1, 0, 0, 0, 0, 0⟩, history := [⟨1, 0, 0, 0, 0, 0⟩]
    r_hist := [1], z_hist := [0], status := .Running, steps := 0 }

/-- A concrete streamline that has stalled. -/
def lineStall : Streamline :=
  { R0 := 70, rho0 := 1, vZ0 := 1, width := 10
    state := ⟨70, 1, 0, 0, 1, 0⟩, history := [⟨70, 1, 0, 0, 1, 0⟩]
    r_hist := [70], z_hist := [1], status := .Stalled, steps := 1 }

/-! ## The claims -/

/-- Claim C1: for every valid launch (R0 > 0, rho0 > 0, vZ0 ≥ 0),
launching a single streamline and then iterating it terminates in a
finite number of steps bounded by the configured maximum, and its final
status is exactly one of Escaped, FellBack, or Stalled - never
Running. -/
theorem C1_launch_iterate_terminates (cfg : Config) (fm : ForceMultiplier)
    (r0 rho0 vZ0 : ℚ) (n : Nat) (hr : 0 < r0) (hrho : 0 < rho0) (hv : 0 ≤ vZ0)
    (hmax : 1 ≤ cfg.maxSteps) (hn : cfg.maxSteps ≤ n) :
    ((iterateLine cfg fm n (launchSingle cfg r0 rho0 vZ0)).status = .Escaped ∨
      (iterateLine cfg fm n (launchSingle cfg r0 rho0 vZ0)).status = .FellBack ∨
      (iterateLine cfg fm n (launchSingle cfg r0 rho0 vZ0)).status = .Stalled) ∧
    (iterateLine cfg fm n (launchSingle cfg r0 rho0 vZ0)).steps ≤ cfg.maxSteps := by
  have hinv := stepInv_launch cfg r0 rho0 vZ0 hmax
  have hsteps0 : (launchSingle cfg r0 rho0 vZ0).steps = 0 := rfl
  have hterm := iterateLine_resolves cfg fm n (launchSingle cfg r0 rho0 vZ0) hinv
    (by rw [hsteps0]; omega)
  exact ⟨status_terminal_cases _ hterm, (stepInv_iterate cfg fm n _ hinv).1⟩

theorem C1_witness :
    (0:ℚ) < 5 ∧ (0:ℚ) < 1 ∧ (0:ℚ) ≤ 0 ∧ 1 ≤ cfg1.maxSteps ∧ cfg1.maxSteps ≤ 2 ∧
    (((iterateLine cfg1 fmZero 2 (launchSingle cfg1 5 1 0)).status = .Escaped ∨
      (iterateLine cfg1 fmZero 2 (launchSingle cfg1 5 1 0)).status = .FellBack ∨
      (iterateLine cfg1 fmZero 2 (launchSingle cfg1 5 1 0)).status = .Stalled) ∧
      (iterateLine cfg1 fmZero 2 (launchSingle cfg1 5 1 0)).steps ≤ cfg1.maxSteps) :=
  ⟨by decide, by decide, by decide, by decide, by decide,
    C1_launch_iterate_terminates cfg1 fmZero 5 1 0 2 (by decide) (by decide)
      (by decide) (by decide) (by decide)⟩

/-- Claim C2: the ensemble mass-loss rate is zero when every streamline
terminated as FellBack or Stalled (those statuses contribute zero to the
sum), and is a strictly positive finite value whenever at least one
streamline terminated as Escaped.  The launch parameters of every line
are positive, as produced by any valid launch. -/
theorem C2_massLossRate_sign (ens : Ensemble)
    (hpos : ∀ l ∈ ens.lines, 0 < l.rho0 ∧ 0 < l.vZ0 ∧ 0 < l.R0 ∧ 0 < l.width) :
    ((∀ l ∈ ens.lines, l.status = .FellBack ∨ l.status = .Stalled) →
      massLossRate ens = some 0) ∧
    ((∀ l ∈ ens.lines, l.status ≠ .Running) →
      ∀ l0 ∈ ens.lines, l0.status = .Escaped →
        ∃ v, massLossRate ens = some v ∧ 0 < v) := by
  constructor
  · intro hall
    have hnr : ∀ l ∈ ens.lines, l.status ≠ .Running := by
      intro l hm
      rcases hall l hm with h | h <;> simp [h]
    rw [massLossRate_of_resolved ens hnr, mdotSweep_eq]
    have : ∀ x ∈ ens.lines.map contribution, x = 0 := by
      intro x hx
      rcases List.mem_map.mp hx with ⟨l, hl, hlx⟩
      rw [← hlx]
      apply contribution_of_not_escaped
      rcases hall l hl with h | h <;> simp [h]
    rw [List.sum_eq_zero this]
  · intro hnr l0 hmem hesc
    refine ⟨mdotSweep ens.lines, massLossRate_of_resolved ens hnr, ?_⟩
    rw [mdotSweep_eq]
    refine sum_contribution_pos ens.lines ?_ l0 hmem ?_
    · intro l hl
      rcases hpos l hl with ⟨h1, h2, h3, h4⟩
      exact contribution_nonneg l h1.le h2.le h3.le h4.le
    · rcases hpos l0 hmem with ⟨h1, h2, h3, h4⟩
      exact contribution_pos l0 h1 h2 h3 h4 hesc

theorem C2_witness :
    (∀ l ∈ (Ensemble.mk [lineFell, lineStall]).lines,
        0 < l.rho0 ∧ 0 < l.vZ0 ∧ 0 < l.R0 ∧ 0 < l.width) ∧
    massLossRate (Ensemble.mk [lineFell, lineStall]) = some 0 ∧
    (∃ v, massLossRate (Ensemble.mk [lineFell, lineEsc]) = some v ∧ 0 < v) :=
  ⟨by decide,
    (C2_massLossRate_sign (Ensemble.mk [lineFell, lineStall]) (by decide)).1 (by decide),
    (C2_massLossRate_sign (Ensemble.mk [lineFell, lineEsc]) (by decide)).2 (by decide)
      lineEsc (by decide) (by decide)⟩

/-- Claim C3: an `InvalidStateError` or `NumericalFailure` arising
during a streamline's integration is caught at its step boundary and
recorded as the Stalled terminal status (by construction of `stepLine`
no exception channel leaves the streamline), and every sibling
streamline in the same ensemble is advanced independently by its own
`iterate` and remains included, in place, in the sequence the
aggregation visits. -/
theorem C3_failure_isolation (cfg : Config) (fm : ForceMultiplier) :
    (∀ (l : Streamline) (e : QwindError), l.status = .Running →
        acceleration cfg fm l.state = .error e →
        (stepLine cfg fm l).status = .Stalled) ∧
    (∀ (n : Nat) (l : Streamline) (e : QwindError), 1 ≤ n → l.status = .Running →
        acceleration cfg fm l.state = .error e →
        (iterateLine cfg fm n l).status = .Stalled) ∧
    (∀ (n : Nat) (pre : List Streamline) (l : Streamline) (post : List Streamline),
        runAll cfg fm n (pre ++ l :: post) =
          runAll cfg fm n pre ++ iterateLine cfg fm n l :: runAll cfg fm n post) ∧
    (∀ (n : Nat) (lines : List Streamline),
        (runAll cfg fm n lines).length = lines.length) := by
  refine ⟨?_, ?_, ?_, ?_⟩
  · intro l e h hacc
    rw [stepLine_stalled_of_error cfg fm l h e hacc]
  · intro n l e hn h hacc
    exact iterateLine_stalled_of_error cfg fm n l h e hacc hn
  · intro n pre l post
    exact runAll_decompose cfg fm n pre l post
  · intro n lines
    exact runAll_length cfg fm n lines

theorem C3_witness :
    lineRun.status = .Running ∧
    acceleration cfg1 fmFail lineRun.state = .error .numericalFailure ∧
    (iterateLine cfg1 fmFail 2 lineRun).status = .Stalled :=
  ⟨rfl, by simp [acceleration, fmFail, lineRun],
    (C3_failure_isolation cfg1 fmFail).2.1 2 lineRun
      .numericalFailure (by decide) rfl
      (by simp [acceleration, fmFail, lineRun])⟩

/-- Claim C4: for every streamline whose status is already terminal
(Escaped, FellBack, or Stalled), calling iterate again is a no-op: it
returns the very same streamline, so the status and the history length
are unchanged. -/
theorem C4_iterate_idempotent_terminal (cfg : Config) (fm : ForceMultiplier)
    (n : Nat) (l : Streamline)
    (h : l.status = .Escaped ∨ l.status = .FellBack ∨ l.status = .Stalled) :
    iterateLine cfg fm n l = l ∧
      (iterateLine cfg fm n l).status = l.status ∧
      (iterateLine cfg fm n l).history.length = l.history.length := by
  have hne : l.status ≠ .Running := by
    rcases h with h | h | h <;> simp [h]
  have heq := iterateLine_of_terminal cfg fm n l hne
  exact ⟨heq, by rw [heq], by rw [heq]⟩

theorem C4_witness :
    (lineEsc.status = .Escaped ∨ lineEsc.status = .FellBack ∨
      lineEsc.status = .Stalled) ∧
    iterateLine cfg1 fmZero 5 lineEsc = lineEsc :=
  ⟨by decide, (C4_iterate_idempotent_terminal cfg1 fmZero 5 lineEsc (by decide)).1⟩

/-- Claim C5: for every streamline after iterate, the history length
equals the number of integration steps actually taken plus one - the
step counter starts at zero at launch and the initial state is history
entry 0 - and the timestamps recorded in the history are strictly
increasing. -/
theorem C5_history_monotone (cfg : Config) (fm : ForceMultiplier)
    (r0 rho0 vZ0 : ℚ) (n : Nat) (hdt : 0 < cfg.dt) :
    (launchSingle cfg r0 rho0 vZ0).steps = 0 ∧
    (iterateLine cfg fm n (launchSingle cfg r0 rho0 vZ0)).history.length =
      (iterateLine cfg fm n (launchSingle cfg r0 rho0 vZ0)).steps + 1 ∧
    List.Chain' (fun a b => a < b)
      ((iterateLine cfg fm n (launchSingle cfg r0 rho0 vZ0)).history.map
        (fun s => s.t)) := by
  refine ⟨rfl, histLen_iterate cfg fm n _ (histLen_launch cfg r0 rho0 vZ0), ?_⟩
  exact (timeMono_iterate cfg fm n _ hdt (timeMono_launch cfg r0 rho0 vZ0)).1

theorem C5_witness :
    0 < cfg1.dt ∧
    ((launchSingle cfg1 5 1 0).steps = 0 ∧
      (iterateLine cfg1 fmZero 2 (launchSingle cfg1 5 1 0)).history.length =
        (iterateLine cfg1 fmZero 2 (launchSingle cfg1 5 1 0)).steps + 1 ∧
      List.Chain' (fun a b => a < b)
        ((iterateLine cfg1 fmZero 2 (launchSingle cfg1 5 1 0)).history.map
          (fun s => s.t))) :=
  ⟨by decide, C5_history_monotone cfg1 fmZero 5 1 0 2 (by decide)⟩

/-- Claim C6: the streamline status state machine only moves out of
Running (any status change originates in the Running state), and the
terminal states are absorbing: no step or iterate call transitions a
streamline out of a terminal state, or indeed changes it at all. -/
theorem C6_status_transitions (cfg : Config) (fm : ForceMultiplier)
    (l : Streamline) (n : Nat) :
    ((stepLine cfg fm l).status ≠ l.status → l.status = .Running) ∧
    (l.status ≠ .Running →
      stepLine cfg fm l = l ∧ iterateLine cfg fm n l = l) :=
  ⟨stepLine_status_source cfg fm l,
    fun h => ⟨stepLine_of_terminal cfg fm l h, iterateLine_of_terminal cfg fm n l h⟩⟩

theorem C6_witness :
    lineEsc.status ≠ .Running ∧
    stepLine cfg1 fmZero lineEsc = lineEsc ∧
    iterateLine cfg1 fmZero 3 lineEsc = lineEsc :=
  ⟨by decide, ((C6_status_transitions cfg1 fmZero lineEsc 3).2 (by decide)).1,
    ((C6_status_transitions cfg1 fmZero lineEsc 3).2 (by decide)).2⟩

/-- Claim C7: the force-field acceleration function never returns a
non-finite value for finite, physically valid inputs - over the error
monad it returns `.ok` with an explicit rational pair whenever the
distance is non-degenerate, the density non-negative and the injected
lookup succeeds - while for degenerate input (distance to the origin
zero, or negative density) it fails with `InvalidStateError` instead of
silently returning infinity, so the caller can mark the streamline
Stalled. -/
theorem C7_acceleration_contract (cfg : Config) (fm : ForceMultiplier)
    (s : PhysicalState) :
    (s.R ^ 2 + s.Z ^ 2 = 0 ∨ s.rho < 0 →
      acceleration cfg fm s = .error .invalidState) ∧
    (s.R ^ 2 + s.Z ^ 2 ≠ 0 → 0 ≤ s.rho → ∀ m, fm s = .ok m →
      acceleration cfg fm s =
        .ok ((m * cfg.lum - cfg.M) /
              ((s.R ^ 2 + s.Z ^ 2) * (s.R ^ 2 + s.Z ^ 2)) * s.R,
            (m * cfg.lum - cfg.M) /
              ((s.R ^ 2 + s.Z ^ 2) * (s.R ^ 2 + s.Z ^ 2)) * s.Z)) := by
  constructor
  · intro h
    simp only [acceleration]
    rcases h with h | h
    · rw [if_pos h]
    · by_cases h2 : s.R ^ 2 + s.Z ^ 2 = 0
      · rw [if_pos h2]
      · rw [if_neg h2, if_pos h]
  · intro h1 h2 m hm
    simp only [acceleration]
    rw [if_neg h1, if_neg (not_lt.mpr h2), hm]

theorem C7_witness :
    ((⟨0, 0, 1, 1, 1, 0⟩ : PhysicalState).R ^ 2 +
        (⟨0, 0, 1, 1, 1, 0⟩ : PhysicalState).Z ^ 2 = 0) ∧
    acceleration cfg1 fmZero ⟨0, 0, 1, 1, 1, 0⟩ = .error .invalidState ∧
    ∃ a, acceleration cfg1 fmZero ⟨1, 0, 0, 0, 0, 0⟩ = .ok a :=
  ⟨by simp,
    (C7_acceleration_contract cfg1 fmZero ⟨0, 0, 1, 1, 1, 0⟩).1 (Or.inl (by simp)),
    ⟨_, (C7_acceleration_contract cfg1 fmZero ⟨1, 0, 0, 0, 0, 0⟩).2
      (by simp) (by simp) 0 rfl⟩⟩

/-- Claim C8: `launchGrid` constructs and registers exactly one
streamline per grid point, in the order of the given radii: for input
radii [100, 200, 300] the three registered streamlines carry launch
radii [100, 200, 300] - ascending - and the mass-loss-rate aggregation
sweep is a left fold that visits the streamlines in exactly that
registration order. -/
theorem C8_grid_order (cfg : Config) (rhoProf vProf : ℚ → ℚ) :
    (∀ radii : List ℚ,
      (launchGrid cfg radii rhoProf vProf).length = radii.length) ∧
    (launchGrid cfg [100, 200, 300] rhoProf vProf).map (fun l => l.R0) =
      [100, 200, 300] ∧
    List.Sorted (fun a b : ℚ => a < b)
      ((launchGrid cfg [100, 200, 300] rhoProf vProf).map (fun l => l.R0)) ∧
    ∀ l1 l2 l3 : Streamline,
      mdotSweep [l1, l2, l3] =
        0 + contribution l1 + contribution l2 + contribution l3 := by
  refine ⟨fun radii => launchGrid_length cfg radii rhoProf vProf,
    launchGrid_map_R0 cfg _ rhoProf vProf, ?_, fun l1 l2 l3 => rfl⟩
  rw [launchGrid_map_R0 cfg _ rhoProf vProf]
  decide

/-- Claim C9: start_lines both constructs the grid of streamlines and
drives every one of them to a terminal state before returning: the
ensemble holds one line per grid radius, every line has a non-empty
trajectory history and a non-Running status, and the ensemble mass-loss
rate is readable (not the "not yet available" signal), with no separate
per-streamline iterate required. -/
theorem C9_start_lines_resolves (cfg : Config) (fm : ForceMultiplier)
    (radii : List ℚ) (rhoProf vProf : ℚ → ℚ) (n : Nat)
    (hmax : 1 ≤ cfg.maxSteps) (hn : cfg.maxSteps ≤ n) :
    (start_lines cfg fm radii rhoProf vProf n).lines.length = radii.length ∧
    (∀ l ∈ (start_lines cfg fm radii rhoProf vProf n).lines,
      l.history ≠ [] ∧ l.status ≠ .Running) ∧
    ∃ v, massLossRate (start_lines cfg fm radii rhoProf vProf n) = some v := by
  have hmem : ∀ l ∈ (start_lines cfg fm radii rhoProf vProf n).lines,
      l.history ≠ [] ∧ l.status ≠ .Running := by
    intro l hl
    rcases mem_start_lines cfg fm radii rhoProf vProf n l hl with ⟨r, hr, hleq⟩
    subst hleq
    constructor
    · have hlen := histLen_iterate cfg fm n _
        (histLen_launch cfg r (rhoProf r) (vProf r))
      unfold HistLen at hlen
      intro hnil
      rw [hnil] at hlen
      simp at hlen
    · refine iterateLine_resolves cfg fm n _
        (stepInv_launch cfg r (rhoProf r) (vProf r) hmax) ?_
      have h0 : (launchSingle cfg r (rhoProf r) (vProf r)).steps = 0 := rfl
      rw [h0]
      omega
  refine ⟨?_, hmem, ?_⟩
  · unfold start_lines
    rw [runAll_length, launchGrid_length]
  · exact ⟨mdotSweep (start_lines cfg fm radii rhoProf vProf n).lines,
      massLossRate_of_resolved _ (fun l hl => (hmem l hl).2)⟩

theorem C9_witness :
    1 ≤ cfg1.maxSteps ∧ cfg1.maxSteps ≤ 2 ∧
    ((start_lines cfg1 fmZero [5] (fun r => 1) (fun r => 1) 2).lines.length =
        ([5] : List ℚ).length ∧
      (∀ l ∈ (start_lines cfg1 fmZero [5] (fun r => 1) (fun r => 1) 2).lines,
        l.history ≠ [] ∧ l.status ≠ .Running) ∧
      ∃ v, massLossRate (start_lines cfg1 fmZero [5] (fun r => 1) (fun r => 1) 2) =
        some v) :=
  ⟨by decide, by decide,
    C9_start_lines_resolves cfg1 fmZero [5] (fun r => 1) (fun r => 1) 2
      (by decide) (by decide)⟩

/-- Claim C10: for every streamline, at initialization and after every
step and every iterate call, the per-quantity history arrays r_hist and
z_hist stay in sync with the snapshot history - equal length, one entry
per recorded state in the same time order - so they can always be
zipped into the (R, Z) trajectory points. -/
theorem C10_hist_arrays_zip :
    (∀ (cfg : Config) (r0 rho0 vZ0 : ℚ), HistSync (launchSingle cfg r0 rho0 vZ0)) ∧
    (∀ (cfg : Config) (fm : ForceMultiplier) (l : Streamline),
      HistSync l → HistSync (stepLine cfg fm l)) ∧
    (∀ (cfg : Config) (fm : ForceMultiplier) (n : Nat) (l : Streamline),
      HistSync l → HistSync (iterateLine cfg fm n l)) ∧
    (∀ l : Streamline, HistSync l →
      l.r_hist.length = l.z_hist.length ∧
      l.r_hist.zip l.z_hist = l.history.map (fun s => (s.R, s.Z))) := by
  refine ⟨histSync_launch, histSync_step, histSync_iterate, ?_⟩
  intro l h
  constructor
  · rw [h.1, h.2]
    simp
  · rw [h.1, h.2]
    exact List.zip_map' _ _ _

theorem C10_witness :
    HistSync lineEsc ∧
    (lineEsc.r_hist.length = lineEsc.z_hist.length ∧
      lineEsc.r_hist.zip lineEsc.z_hist =
        lineEsc.history.map (fun s => (s.R, s.Z))) :=
  ⟨⟨rfl, rfl⟩, C10_hist_arrays_zip.2.2.2 lineEsc ⟨rfl, rfl⟩⟩
